import Mathlib

set_option maxRecDepth 8000

/-!
Verification development for the IPO GMP alert pipeline
(`src/ipo_gmp_telegram.py`).

The Python source is shallowly embedded as executable Lean definitions:

* strings are modelled as `String` / `List Char`; pandas missing values
  (`NaN` / `None`) as `Option`;
* Python float values are modelled by `PyFloat`: finite values as exact
  rationals (the program only performs field operations and comparisons
  on them), plus the two infinities and NaN, which `float(str)` can
  produce and which the pipeline's comparisons and formatting treat
  specially;
* Python exceptions that can escape a function are modelled with
  `Except Unit`; exceptions that the source catches locally are folded
  into `Option` results exactly where the source catches them;
* `datetime.date` values are modelled by a `Date` structure; comparisons
  and `timedelta` arithmetic on valid dates are performed on the
  proleptic-Gregorian day ordinal (`Date.toOrdinal`), which agrees with
  Python date ordering and `timedelta` addition.

Definitions keep the names of the Python functions they embed
(`parse_date_flexible`, `parse_size_to_cr`, `parse_gmp_field`, `ci_col`,
`normalize_df`, `filter_relevant`, `format_message_html`, `main` as
`runPipeline`).
-/

/-! ## Character and list-of-character helpers -/

/-- Decimal digit character: `dch n` is the character for digit `n` (n < 10). -/
def dch (n : Nat) : Char := Char.ofNat (48 + n)

/-- Substring test on char lists (Python `needle in hay`). -/
def containsSub (hay needle : List Char) : Bool :=
  decide (needle <:+: hay)

/-- Substring test on strings (Python `needle in hay`). -/
def strContainsSub (hay needle : String) : Bool :=
  containsSub hay.data needle.data

/-- Lowercase every character (Python `str.lower` restricted to chars with a
1-1 lowercase mapping, which covers all data in this pipeline). -/
def lowerChars (l : List Char) : List Char := l.map Char.toLower

/-- Lowercase a string. -/
def strLower (s : String) : String := String.mk (lowerChars s.data)

/-- Python `str.strip()` on a char list: drop whitespace from both ends. -/
def stripChars (l : List Char) : List Char :=
  ((l.dropWhile Char.isWhitespace).reverse.dropWhile Char.isWhitespace).reverse

/-- Python `str.strip()` on a string. -/
def pyStrip (s : String) : String := String.mk (stripChars s.data)

/-- Fuel-driven worker for `replChars`: replaces occurrences of `pat` by
`repl` scanning left to right without rescanning the replacement, exactly
like Python `str.replace`.  `fuel` only needs to be at least the input
length; it is there to keep the recursion structural so the kernel can
evaluate it. -/
def replCharsAux (pat repl : List Char) : Nat → List Char → List Char
  | _, [] => []
  | 0, l => l
  | fuel + 1, c :: rest =>
    if pat ≠ [] ∧ pat.isPrefixOf (c :: rest) then
      repl ++ replCharsAux pat repl fuel ((c :: rest).drop pat.length)
    else
      c :: replCharsAux pat repl fuel rest

/-- Python `str.replace(pat, repl)` (all occurrences, left to right,
non-overlapping).  For the empty pattern (never used by the source) the
input is returned unchanged. -/
def replChars (pat repl l : List Char) : List Char :=
  replCharsAux pat repl l.length l

/-- Python `str.replace` on strings. -/
def pyReplace (s pat repl : String) : String :=
  String.mk (replChars pat.data repl.data s.data)

/-! ## Calendar dates

Python `datetime.date` values, with fields year, month, day.  Validity
(day in range for the month) is checked by the embedded parsers exactly
where `datetime` constructors would check it. -/

/-- A calendar date as carried by Python `datetime.date`. -/
structure Date where
  year : Int
  month : Nat
  day : Nat
deriving DecidableEq, Repr

/-- Gregorian leap-year test (as used by `datetime`). -/
def isLeap (y : Int) : Bool := y % 4 = 0 ∧ (y % 100 ≠ 0 ∨ y % 400 = 0)

/-- Days in a month of a given year (as validated by `datetime.date`). -/
def daysInMonth (y : Int) (m : Nat) : Nat :=
  match m with
  | 1 => 31 | 2 => if isLeap y then 29 else 28 | 3 => 31 | 4 => 30
  | 5 => 31 | 6 => 30 | 7 => 31 | 8 => 31 | 9 => 30 | 10 => 31
  | 11 => 30 | 12 => 31
  | _ => 0

/-- Proleptic-Gregorian day number (Hinnant's days-from-civil algorithm;
an affine shift of Python `date.toordinal`).  Comparing ordinals agrees
with comparing Python dates, and `date + timedelta(days=k)` corresponds
to adding `k` to the ordinal. -/
def Date.toOrdinal (d : Date) : Int :=
  let y : Int := if d.month ≤ 2 then d.year - 1 else d.year
  let era : Int := (if 0 ≤ y then y else y - 399) / 400
  let yoe : Int := y - era * 400
  let mp : Int := (Int.ofNat d.month + 9) % 12
  let doy : Int := (153 * mp + 2) / 5 + Int.ofNat d.day - 1
  let doe : Int := yoe * 365 + yoe / 4 - yoe / 100 + doy
  era * 146097 + doe - 719468

/-! ## Flexible date parsing (`parse_date_flexible`)

CPython `strptime` facts mirrored here: the directive `%d` matches the
regex `3[01]|[12][0-9]|0[1-9]|[1-9]` (one or two digits, 1..31); `%b`
matches a three-letter month abbreviation and `%B` a full month name,
both case-insensitively; `%Y` matches exactly four digits; `%y` matches
exactly two digits and pivots at 68 (00-68 means 2000-2068, 69-99 means
1969-1999); a space in the format matches one or more whitespace
characters; the whole input must be consumed; after the regex matches,
constructing the `datetime` validates the day against the month of the
parsed year (or of the default year 1900 when the pattern has no year),
and `.replace(year=...)` re-validates against the new year. -/

/-- Month abbreviations recognised by `%b`, lowercased. -/
def monthAbbrevs : List (List Char) :=
  ["jan".data, "feb".data, "mar".data, "apr".data, "may".data, "jun".data,
   "jul".data, "aug".data, "sep".data, "oct".data, "nov".data, "dec".data]

/-- Full month names recognised by `%B`, lowercased. -/
def monthFulls : List (List Char) :=
  ["january".data, "february".data, "march".data, "april".data, "may".data,
   "june".data, "july".data, "august".data, "september".data,
   "october".data, "november".data, "december".data]

/-- Match the strptime directive `%d` at the head of the input: the regex
alternation `3[01]|[12][0-9]|0[1-9]|[1-9]`, returning the day value and
the unconsumed rest. -/
def matchDay : List Char → Option (Nat × List Char)
  | [] => none
  | c1 :: rest1 =>
    match rest1 with
    | c2 :: rest2 =>
      if c1 = '3' ∧ (c2 = '0' ∨ c2 = '1') then some (30 + (c2.toNat - 48), rest2)
      else if (c1 = '1' ∨ c1 = '2') ∧ c2.isDigit then
        some ((c1.toNat - 48) * 10 + (c2.toNat - 48), rest2)
      else if c1 = '0' ∧ c2.isDigit ∧ c2 ≠ '0' then some (c2.toNat - 48, rest2)
      else if c1.isDigit ∧ c1 ≠ '0' then some (c1.toNat - 48, rest1)
      else none
    | [] => if c1.isDigit ∧ c1 ≠ '0' then some (c1.toNat - 48, []) else none

/-- Separator kinds appearing in the six explicit patterns: a literal dash,
or format whitespace (which strptime turns into the regex `\s+`). -/
inductive SepKind where
  | dash
  | ws

/-- Consume a separator. -/
def consumeSep : SepKind → List Char → Option (List Char)
  | .dash, c :: rest => if c = '-' then some rest else none
  | .dash, [] => none
  | .ws, c :: rest =>
    if c.isWhitespace then some (rest.dropWhile Char.isWhitespace) else none
  | .ws, [] => none

/-- Match `%b` (three-letter month abbreviation, case-insensitive) at the
head of the input, returning the month number (1..12) and the rest. -/
def matchB : List Char → Option (Nat × List Char)
  | c1 :: c2 :: c3 :: rest =>
    match monthAbbrevs.indexOf? [c1.toLower, c2.toLower, c3.toLower] with
    | some i => some (i + 1, rest)
    | none => none
  | _ => none

/-- Match `%B` (full month name, case-insensitive) at the head of the
input.  No month name is a prefix of another, so trying the names in
order is equivalent to the longest-first alternation strptime builds. -/
def matchBFull (l : List Char) : Option (Nat × List Char) :=
  match (List.range 12).find? (fun i =>
      (monthFulls.getD i []).isPrefixOf (lowerChars (l.take 9))) with
  | some i => some (i + 1, l.drop (monthFulls.getD i []).length)
  | none => none

/-- Match `%Y`: exactly four digits. -/
def matchY4 : List Char → Option (Nat × List Char)
  | c1 :: c2 :: c3 :: c4 :: rest =>
    if c1.isDigit ∧ c2.isDigit ∧ c3.isDigit ∧ c4.isDigit then
      some ((((c1.toNat - 48) * 10 + (c2.toNat - 48)) * 10 + (c3.toNat - 48)) * 10
              + (c4.toNat - 48), rest)
    else none
  | _ => none

/-- Match `%y`: exactly two digits, with the CPython century pivot. -/
def matchY2 : List Char → Option (Nat × List Char)
  | c1 :: c2 :: rest =>
    if c1.isDigit ∧ c2.isDigit then
      let yy := (c1.toNat - 48) * 10 + (c2.toNat - 48)
      some (if yy ≤ 68 then 2000 + yy else 1900 + yy, rest)
    else none
  | _ => none

/-- Year components of the six explicit patterns. -/
inductive YearMode where
  | y4
  | y2
  | noYear

/-- Run one of the six explicit strptime patterns (`%d<sep>%b`,
optionally followed by `<sep>%Y` or `<sep>%y`) on the whole input.
For the year-less patterns the day is validated against the strptime
default year 1900 and then again against `today.year` (this is the
`dt.replace(year=today.year)` step, whose failure the source catches
along with strptime failures). -/
def runPattern (sep : SepKind) (ym : YearMode) (l : List Char) (today : Date) : Option Date := do
  let (d, r1) ← matchDay l
  let r2 ← consumeSep sep r1
  let (m, r3) ← matchB r2
  match ym with
  | .noYear =>
    if r3 = [] ∧ d ≤ daysInMonth 1900 m ∧ d ≤ daysInMonth today.year m then
      some ⟨today.year, m, d⟩
    else none
  | .y4 => do
    let r4 ← consumeSep sep r3
    let (y, r5) ← matchY4 r4
    if r5 = [] ∧ 1 ≤ y ∧ d ≤ daysInMonth (Int.ofNat y) m then
      some ⟨Int.ofNat y, m, d⟩
    else none
  | .y2 => do
    let r4 ← consumeSep sep r3
    let (y, r5) ← matchY2 r4
    if r5 = [] ∧ d ≤ daysInMonth (Int.ofNat y) m then
      some ⟨Int.ofNat y, m, d⟩
    else none

/-- The source's spelled-out-month attempt: replace commas by spaces,
strip, and try the pattern `%d %B`, then move the result to the current
year (validating the day against 1900 and against `today.year`). -/
def fullMonthAttempt (s : String) (today : Date) : Option Date := do
  let l := stripChars (replChars [','] [' '] s.data)
  let (d, r1) ← matchDay l
  let r2 ← consumeSep .ws r1
  let (m, r3) ← matchBFull r2
  if r3 = [] ∧ d ≤ daysInMonth 1900 m ∧ d ≤ daysInMonth today.year m then
    some ⟨today.year, m, d⟩
  else none

/-- Character class of the separator (dash, slash or space) in the last-resort regex. -/
def sepClass (c : Char) : Bool := c = '-' ∨ c = '/' ∨ c = ' '

/-- Backtracking for the regex piece "ws-star, one of dash slash space,
ws-star" followed by three or more letters: the first ws-star is greedy,
so the separator position `i` is tried from the end of the whitespace
run down to 0.  Returns the (maximal, at least 3 letters long) letter
token following the separator. -/
def sepAttemptAt (l : List Char) (i : Nat) : Option (List Char) :=
  match l.drop i with
  | c :: rest =>
    if sepClass c then
      let letters := (rest.dropWhile Char.isWhitespace).takeWhile Char.isAlpha
      if 3 ≤ letters.length then some letters else none
    else none
  | [] => none

/-- Try separator positions from `i` down to 0 (greedy first ws-star). -/
def trySepAt (l : List Char) : Nat → Option (List Char)
  | 0 => sepAttemptAt l 0
  | i + 1 =>
    match sepAttemptAt l (i + 1) with
    | some letters => some letters
    | none => trySepAt l i

/-- Attempt the last-resort regex (a 1-2 digit day, a separator chain,
then a letter token of length at least 3) at the current position; the
two digit day is preferred, as the digit quantifier is greedy. -/
def fallbackAt (l : List Char) : Option (Nat × List Char) :=
  match l with
  | c1 :: rest1 =>
    if c1.isDigit then
      match rest1 with
      | c2 :: rest2 =>
        if c2.isDigit then
          match trySepAt rest2 ((rest2.takeWhile Char.isWhitespace).length) with
          | some tok => some ((c1.toNat - 48) * 10 + (c2.toNat - 48), tok)
          | none =>
            match trySepAt rest1 ((rest1.takeWhile Char.isWhitespace).length) with
            | some tok => some (c1.toNat - 48, tok)
            | none => none
        else
          match trySepAt rest1 ((rest1.takeWhile Char.isWhitespace).length) with
          | some tok => some (c1.toNat - 48, tok)
          | none => none
      | [] => none
    else none
  | [] => none

/-- Python `re.search`: try `fallbackAt` at every position, left to right. -/
def fallbackSearch : List Char → Option (Nat × List Char)
  | [] => none
  | c :: rest =>
    match fallbackAt (c :: rest) with
    | some r => some r
    | none => fallbackSearch rest

/-- Decimal rendering of a number below 100 (Python f-string on the
1-2 digit day captured by the regex). -/
def dayChars (d : Nat) : List Char :=
  if d < 10 then [dch d] else [dch (d / 10), dch (d % 10)]

/-- The four decimal digits of a year in 1000..9999. -/
def year4Chars (y : Nat) : List Char :=
  [dch (y / 1000), dch (y / 100 % 10), dch (y / 10 % 10), dch (y % 10)]

/-- Decimal rendering of a Python date year (f-string): Python dates hold
years 1..9999 only, so four ranges suffice. -/
def renderYearChars (y : Int) : List Char :=
  if 1000 ≤ y ∧ y ≤ 9999 then year4Chars y.toNat
  else if 100 ≤ y then [dch (y.toNat / 100), dch (y.toNat / 10 % 10), dch (y.toNat % 10)]
  else if 10 ≤ y then [dch (y.toNat / 10), dch (y.toNat % 10)]
  else if 0 ≤ y then [dch y.toNat]
  else []

/-- The last-resort branch of the source: after the regex finds a day and
a month token, it formats `f"{day} {mon} {today.year}"` and parses it
with `%d %b %Y`. -/
def regexFallback (l : List Char) (today : Date) : Option Date := do
  let (d, tok) ← fallbackSearch l
  runPattern .ws .y4 (dayChars d ++ ' ' :: (tok ++ ' ' :: renderYearChars today.year)) today

/-- Body of `parse_date_flexible` on a non-null cell: strip, empty
check, the six explicit patterns in order, the `%d %B` attempt, then
the regex fallback.  Every failing branch was caught in the source, so
the embedding is a total function into `Option Date` and total failure
is the value `none`, never an error. -/
def parse_date_flexible_str (s0 : String) (today : Date) : Option Date :=
  if stripChars s0.data = [] then none
  else
    (runPattern .dash .y4 (stripChars s0.data) today).orElse fun _ =>
    (runPattern .dash .y2 (stripChars s0.data) today).orElse fun _ =>
    (runPattern .dash .noYear (stripChars s0.data) today).orElse fun _ =>
    (runPattern .ws .y4 (stripChars s0.data) today).orElse fun _ =>
    (runPattern .ws .y2 (stripChars s0.data) today).orElse fun _ =>
    (runPattern .ws .noYear (stripChars s0.data) today).orElse fun _ =>
    (fullMonthAttempt (String.mk (stripChars s0.data)) today).orElse fun _ =>
    regexFallback (stripChars s0.data) today

/-- Embedding of `parse_date_flexible` (`pd.isnull` guard plus body). -/
def parse_date_flexible (c : Option String) (today : Date) : Option Date :=
  match c with
  | none => none
  | some s0 => parse_date_flexible_str s0 today

/-! ## Numeric literal parsing (Python `float`)

The model covers the CPython `float(str)` string grammar over its ASCII
core: optional surrounding whitespace (the parser also skips vertical
tab and form feed), an optional sign, then either a case-insensitive
infinity or NaN spelling or a finite literal - digits with an optional
fractional part and an optional exponent, where every underscore
separator must sit between two digits.  Finite values are carried as
exact rationals (the floats-as-rationals convention of this
development: the 53-bit rounding of binary doubles, and with it the
overflow of astronomically long literals to the infinite value, is
outside the model).  Non-ASCII decimal digits and spaces, which CPython
maps to ASCII before parsing, are outside the model, so the theorems
that reason about rejected inputs carry an ASCII hypothesis. -/

/-- A CPython float value as distinguished by this pipeline: a finite
value (carried exactly as a rational), one of the two infinities, or
NaN. -/
inductive PyFloat where
  | fin (q : ℚ)
  | inf
  | ninf
  | nan
deriving DecidableEq, Repr

/-- Effect of a leading minus sign on a parsed float value. -/
def PyFloat.neg : PyFloat → PyFloat
  | .fin q => .fin (-q)
  | .inf => .ninf
  | .ninf => .inf
  | .nan => .nan

/-- Python `v > q` for a float value against a finite literal: NaN
comparisons are false, the positive infinity exceeds every finite
number. -/
def PyFloat.gtQ : PyFloat → ℚ → Bool
  | .fin v, q => decide (q < v)
  | .inf, _ => true
  | _, _ => false

/-- Python division of a float value by a positive finite constant. -/
def PyFloat.divQ : PyFloat → ℚ → PyFloat
  | .fin v, q => .fin (v / q)
  | x, _ => x

/-- Numeric value of a big-endian list of digit characters. -/
def digitsVal (l : List Char) : Nat :=
  l.foldl (fun a c => a * 10 + (c.toNat - 48)) 0

/-- Whitespace skipped around a float literal: the `str.strip`
whitespace plus vertical tab and form feed. -/
def pyWsChar (c : Char) : Bool :=
  c.isWhitespace ∨ c = Char.ofNat 11 ∨ c = Char.ofNat 12

/-- Underscore-separator validity (PEP 515, as enforced by the CPython
float parser): every underscore must have a digit immediately before
and after it.  `prev` is the character preceding the current position. -/
def underscoresOk : Option Char → List Char → Bool
  | _, [] => true
  | prev, c :: rest =>
    if c = '_' then
      (match prev with | some p => p.isDigit | none => false) &&
      (match rest with | d :: _ => d.isDigit | [] => false) &&
      underscoresOk (some c) rest
    else underscoresOk (some c) rest

/-- Unsigned part of a float literal: mantissa and optional exponent. -/
def pyFloatMag (l : List Char) : Option ℚ :=
  let ip := l.takeWhile Char.isDigit
  let r1 := l.dropWhile Char.isDigit
  let fr : List Char × List Char :=
    match r1 with
    | '.' :: r => (r.takeWhile Char.isDigit, r.dropWhile Char.isDigit)
    | _ => ([], r1)
  let fp := fr.1
  let r2 := fr.2
  if ip = [] ∧ fp = [] then none
  else
    let mant : ℚ := (digitsVal ip : ℚ) + (digitsVal fp : ℚ) / ((10 : ℚ) ^ fp.length)
    match r2 with
    | [] => some mant
    | e :: r3 =>
      if e = 'e' ∨ e = 'E' then
        let se : Int × List Char :=
          match r3 with
          | '+' :: t => (1, t)
          | '-' :: t => (-1, t)
          | _ => (1, r3)
        let ed := se.2.takeWhile Char.isDigit
        let r5 := se.2.dropWhile Char.isDigit
        if ed = [] ∨ r5 ≠ [] then none
        else some (mant * (10 : ℚ) ^ (se.1 * (digitsVal ed : Int)))
      else none

/-- The whitespace stripping the float parser performs. -/
def pyFloatStrip (l : List Char) : List Char :=
  ((l.dropWhile pyWsChar).reverse.dropWhile pyWsChar).reverse

/-- Sign-free body of a float literal: an infinity or NaN spelling
(case-insensitive), or a finite literal whose underscore separators
are validated and removed before the magnitude is parsed. -/
def pyFloatBody (l : List Char) : Option PyFloat :=
  if lowerChars l = "inf".data ∨ lowerChars l = "infinity".data then some .inf
  else if lowerChars l = "nan".data then some .nan
  else if underscoresOk none l then
    (pyFloatMag (l.filter (fun c => ¬ c = '_'))).map PyFloat.fin
  else none

/-- Python `float(s)` on a char list. -/
def pyFloat (l0 : List Char) : Option PyFloat :=
  match pyFloatStrip l0 with
  | [] => none
  | c :: r =>
    if c = '+' then pyFloatBody r
    else if c = '-' then (pyFloatBody r).map PyFloat.neg
    else pyFloatBody (c :: r)

/-- Little-endian decimal digits of `n`, with fuel (`fuel ≥ n` suffices). -/
def natDigitsAux : Nat → Nat → List Char
  | 0, _ => []
  | _ + 1, 0 => []
  | fuel + 1, n => dch (n % 10) :: natDigitsAux fuel (n / 10)

/-- Decimal rendering of a natural number. -/
def natChars (n : Nat) : List Char :=
  if n = 0 then ['0'] else (natDigitsAux n n).reverse

/-! ## Monetary size parsing (`parse_size_to_cr`)

The two suffix regexes anchor the whole cleaned string: a nonempty run
of digits and dots followed exactly by one of the suffix alternatives.
The suffix alternatives contain neither digits nor dots, so the greedy
character class consumes precisely the maximal digit-dot prefix.  When
a suffix regex matches, the source calls `float` on the captured group
with no exception handler, so a malformed group (such as "1.2.3")
raises out of the function: that path is the `Except.error` value.  The
final bare-number branch is wrapped in try/except in the source and
maps to `none` on failure. -/

/-- Digit-or-dot character class of the size regexes. -/
def numDotChar (c : Char) : Bool := c.isDigit ∨ c = '.'

/-- Match the anchored regex "nonempty digit-dot run then one of the
given suffixes", returning the captured numeric part. -/
def matchNumSuffix (l : List Char) (sufs : List (List Char)) : Option (List Char) :=
  let num := l.takeWhile numDotChar
  let rest := l.drop num.length
  if num ≠ [] ∧ rest ∈ sufs then some num else none

/-- The currency/separator cleaning of `parse_size_to_cr`: remove the
rupee marker and the Rs abbreviations, strip, then remove commas and
spaces. -/
def cleanSizeChars (s1 : String) : List Char :=
  replChars [' '] [] (replChars [','] []
    (stripChars (replChars "Rs".data [] (replChars "Rs.".data []
      (replChars "â‚¹".data [] s1.data)))))

/-- Body of `parse_size_to_cr` on a non-null cell (the Python local
variables s and the cleaned string are written out as the expressions
they abbreviate). -/
def parse_size_to_cr_str (s0 : String) : Except Unit (Option PyFloat) :=
  if pyStrip s0 = "" ∨ pyStrip s0 = "-" ∨ pyStrip s0 = "â€”" ∨ pyStrip s0 = "â€“" then
    .ok none
  else
    match matchNumSuffix (cleanSizeChars (pyStrip s0))
        ["cr".data, "Cr".data, "CR".data] with
    | some num =>
      match pyFloat num with
      | some v => .ok (some v)
      | none => .error ()
    | none =>
      match matchNumSuffix (cleanSizeChars (pyStrip s0))
          ["l".data, "L".data, "lakh".data, "Lakh".data] with
      | some num =>
        match pyFloat num with
        | some v => .ok (some (v.divQ 100))
        | none => .error ()
      | none =>
        match pyFloat (cleanSizeChars (pyStrip s0)) with
        | some val => .ok (some (if val.gtQ 1000 then val.divQ 10000000 else val))
        | none => .ok none

/-- Embedding of `parse_size_to_cr`. -/
def parse_size_to_cr : Option String → Except Unit (Option PyFloat)
  | none => .ok none
  | some s0 => parse_size_to_cr_str s0

/-! ## GMP field parsing (`parse_gmp_field`)

The rupee regex searches for the (mojibake) rupee marker followed by
optional whitespace and a nonempty run of digits, dots and commas; the
percent regex is an alternation of "digit run, optional whitespace,
percent sign" and "parenthesised optionally-signed digit run and
percent sign".  All character classes involved are disjoint from their
followers, so greedy maximal munch needs no backtracking. -/

/-- Digit, dot or comma (the rupee and percent digit class). -/
def numDotCommaChar (c : Char) : Bool := c.isDigit ∨ c = '.' ∨ c = ','

/-- Search for the rupee amount group. -/
def rupeeSearch : List Char → Option (List Char)
  | [] => none
  | c :: rest =>
    let here :=
      if "â‚¹".data.isPrefixOf (c :: rest) then
        let after := ((c :: rest).drop 3).dropWhile Char.isWhitespace
        let digs := after.takeWhile numDotCommaChar
        if digs ≠ [] then some digs else none
      else none
    match here with
    | some digs => some digs
    | none => rupeeSearch rest

/-- First percent alternative: digit run, optional whitespace, percent. -/
def pctAlt1 (l : List Char) : Option (List Char) :=
  let digs := l.takeWhile numDotCommaChar
  if digs = [] then none
  else
    match (l.drop digs.length).dropWhile Char.isWhitespace with
    | '%' :: _ => some digs
    | _ => none

/-- Second percent alternative: parenthesised signed digit run + percent. -/
def pctAlt2 (l : List Char) : Option (List Char) :=
  match l with
  | '(' :: r =>
    let sr : List Char × List Char :=
      match r with
      | '+' :: t => (['+'], t)
      | '-' :: t => (['-'], t)
      | _ => ([], r)
    let digs := sr.2.takeWhile numDotCommaChar
    if digs = [] then none
    else
      match sr.2.drop digs.length with
      | '%' :: ')' :: _ => some (sr.1 ++ digs)
      | _ => none
  | _ => none

/-- Search for the percent group (leftmost match, first alternative
preferred at each position). -/
def pctSearch : List Char → Option (List Char)
  | [] => none
  | c :: rest =>
    match pctAlt1 (c :: rest) with
    | some g => some g
    | none =>
      match pctAlt2 (c :: rest) with
      | some g => some g
      | none => pctSearch rest

/-- Embedding of `parse_gmp_field`: returns the display string used by
the message formatter. -/
def parse_gmp_field (c : Option String) : String :=
  match c with
  | none => "â‚¹-- (0.00%)"
  | some s0 =>
    let raw := pyStrip s0
    if raw = "" ∨ raw = "-" ∨ raw = "â€”" ∨ raw = "â€“" then "â‚¹-- (0.00%)"
    else
      let rupee : Option (List Char) :=
        (rupeeSearch raw.data).map (fun g => g.filter (fun c => ¬ c = ','))
      let percent : Option (List Char) :=
        (pctSearch raw.data).map (fun g => g.filter (fun c => ¬ c = ','))
      let rupeeDisp :=
        match rupee with
        | some g => if g = [] then "â‚¹--" else "â‚¹" ++ String.mk g
        | none => "â‚¹--"
      let percentDisp :=
        match percent with
        | some g => if g = [] then "(0.00%)" else "(" ++ String.mk g ++ "%)"
        | none => "(0.00%)"
      rupeeDisp ++ " " ++ percentDisp

/-! ## Column resolution (`ci_col`)

A pandas column label is a string or (for header-less tables parsed
positionally) an integer.  Building the comprehension
`{c.lower(): c for c in df.columns}` calls `.lower()` on every label
before any candidate is looked up, so one non-string label raises
`AttributeError` out of the function; the substring fallback coerces
with `str(col)`.  A Python dict keeps the last value written for a key,
so among columns sharing a lowercased header the last one wins the
exact-match phase. -/

/-- A pandas column label. -/
inductive Header where
  | str (s : String)
  | idx (n : Nat)
deriving DecidableEq, Repr

/-- Is this label a Python string? -/
def Header.isStr : Header → Bool
  | .str _ => true
  | .idx _ => false

/-- Python `str(label)`. -/
def Header.pyStr : Header → String
  | .str s => s
  | .idx n => String.mk (natChars n)

/-- Lowercased header text (only meaningful for string labels). -/
def Header.lowerStr : Header → String
  | .str s => strLower s
  | .idx n => String.mk (natChars n)

/-- Python truthiness of a label (`if name`). -/
def Header.truthy : Header → Bool
  | .str s => ¬ s = ""
  | .idx n => ¬ n = 0

/-- Embedding of `ci_col`.  `Except.error` is the `AttributeError`
raised while building the lowercase dict when a label is not a string. -/
def ci_col (cols : List Header) (candidates : List String) : Except Unit (Option Header) :=
  if cols.all Header.isStr then
    match candidates.findSome? (fun cand =>
        cols.reverse.find? (fun c => c.lowerStr = strLower cand)) with
    | some c => .ok (some c)
    | none =>
      match cols.find? (fun c =>
          candidates.any (fun cand => strContainsSub (strLower c.pyStr) (strLower cand))) with
      | some c => .ok (some c)
      | none => .ok none
  else .error ()

/-! ## DataFrames and the record pipeline (`normalize_df`, `filter_relevant`)

A parsed table is a header row plus cell rows; a cell is `none` for a
pandas `NaN` and `some s` for the string `s` (the tables this script
scrapes carry text cells).  `normalize_df` is embedded stage by stage in
source order:

1. resolve the seven canonical columns with `ci_col` (a non-string
   label raises, which `main` catches and turns into an error exit);
2. `safe_col` materialises a column, giving every row the empty string
   when the column is absent or its label is falsy;
3. the name column is `astype(str)` (so a missing name shows as "nan"),
   the trailing-capital-U regex is stripped, then whitespace;
4. open/close dates are parsed with `parse_date_flexible`;
5. rows whose name contains "sme" case-insensitively, or whose listing
   text contains the mojibake cross glyph, are dropped;
6. `parse_size_to_cr` runs on the surviving size cells (its uncaught
   exception propagates).  A parsed `None` and a parsed NaN float both
   materialise as a missing (NaN) cell of the numeric column
   (`sizeCellOpt`);
7. `fillna("")` replaces every remaining `NaN` by the empty string —
   in particular a missing parsed size becomes the empty string;
8. the sort-key column: the source wraps the whole `.apply` in
   try/except, and `float("")` raises, so when any size cell is
   missing the except arm assigns 0.0 to the entire column; otherwise
   each key is the stored parsed size (`float` is the identity on it,
   infinite values included);
9. sort by key descending and assign 1-based ranks.  `sort_values`
   uses numpy introsort, whose order on equal keys is unspecified (it
   is insertion sort, hence stable, below 16 elements); the embedding
   uses a stable descending insertion sort under the descending key
   order `PyFloat.keyGe`. -/

/-- A pandas cell: `none` is `NaN`. -/
abbrev Cell := Option String

/-- A parsed table. -/
structure DF where
  cols : List Header
  rows : List (List Cell)
deriving Repr

/-- Python `str(cell)` under `astype(str)`: `NaN` prints as "nan". -/
def cellPyStr : Cell → String
  | none => "nan"
  | some s => s

/-- Value of `fillna("")` on a cell. -/
def cellFill : Cell → String
  | none => ""
  | some s => s

/-- Strip the trailing-capital-U marker: the regex matches a whitespace
run followed by a final "U", so when the text ends in "U" the "U" and
the whitespace run before it are removed. -/
def stripTrailingU (l : List Char) : List Char :=
  match l.reverse with
  | 'U' :: r => (r.dropWhile Char.isWhitespace).reverse
  | _ => l

/-- Name cleaning: `astype(str)`, regex-strip the U marker, then strip. -/
def cleanName (c : Cell) : String :=
  String.mk (stripChars (stripTrailingU (cellPyStr c).data))

/-- The `safe_col` helper: the cell of row `row` for resolved label `h`,
or the empty-string cell when the label is absent or falsy. -/
def safe_col (cols : List Header) (h : Option Header) (row : List Cell) : Cell :=
  match h with
  | some hh =>
    if hh.truthy ∧ hh ∈ cols then row.getD (cols.indexOf hh) none else some ""
  | none => some ""

/-- One standardized record, after ranking. -/
structure StdRow where
  name : String
  openText : String
  closeText : String
  sizeText : String
  gmpDisplay : String
  subText : String
  listingText : String
  openParsed : Option Date
  closeParsed : Option Date
  sizeNum : Option PyFloat
  sizeSort : PyFloat
  rank : Nat
deriving DecidableEq, Repr

/-- Pre-rank record (stages 1-7). -/
structure PreRow where
  name : String
  openCell : Cell
  closeCell : Cell
  sizeCell : Cell
  gmpCell : Cell
  subCell : Cell
  listingCell : Cell
  openParsed : Option Date
  closeParsed : Option Date
deriving Repr

/-- The pandas cell stored for a parsed size: Python `None` and the
float NaN both materialise as a missing (NaN) cell of the
`IPO_Size_num` column. -/
def sizeCellOpt : Option PyFloat → Option PyFloat
  | some .nan => none
  | x => x

/-- Sort keys of stage 8: per-row stored parsed size, unless any size
cell is missing, in which case `float("")` raises and the except arm
makes the whole column 0.0. -/
def sizeSortKeys (cells : List (Option PyFloat)) : List PyFloat :=
  if cells.all Option.isSome then cells.map (fun s => s.getD (.fin 0))
  else cells.map (fun _ => PyFloat.fin 0)

/-- Descending placement order of the sort keys, as `sort_values`
(numpy `nargsort`) orders them with `ascending=False`: finite values in
their usual order, the positive infinity above every finite value, the
negative infinity below, and NaN keys placed last.  `keyGe a b` means a
key `a` may be placed no later than `b`.  (NaN keys cannot actually
occur: a NaN parsed size has become a missing cell, which either
triggers the column zeroing or is excluded by `Option.isSome`.) -/
def PyFloat.keyGe : PyFloat → PyFloat → Bool
  | _, .nan => true
  | .nan, _ => false
  | .inf, _ => true
  | _, .inf => false
  | .fin a, .fin b => decide (b ≤ a)
  | .fin _, .ninf => true
  | .ninf, .fin _ => false
  | .ninf, .ninf => true

/-- Stable descending insertion step for a fold from the right: the
inserted element precedes the already-placed elements whose key it is
`keyGe`-above-or-equal, which preserves input order on equal keys. -/
def insertDesc (x : PreRow × Option PyFloat × PyFloat) :
    List (PreRow × Option PyFloat × PyFloat) → List (PreRow × Option PyFloat × PyFloat)
  | [] => [x]
  | y :: ys => if PyFloat.keyGe x.2.2 y.2.2 then x :: y :: ys else y :: insertDesc x ys

/-- Stable sort by descending key. -/
def sortDesc (l : List (PreRow × Option PyFloat × PyFloat)) :
    List (PreRow × Option PyFloat × PyFloat) :=
  l.foldr insertDesc []

/-- Finalize a sorted row with its 0-based position. -/
def finalizeRow (x : PreRow × Option PyFloat × PyFloat) (i : Nat) : StdRow :=
  { name := x.1.name
    openText := cellFill x.1.openCell
    closeText := cellFill x.1.closeCell
    sizeText := cellFill x.1.sizeCell
    gmpDisplay := parse_gmp_field x.1.gmpCell
    subText := cellFill x.1.subCell
    listingText := cellFill x.1.listingCell
    openParsed := x.1.openParsed
    closeParsed := x.1.closeParsed
    sizeNum := x.2.1
    sizeSort := x.2.2
    rank := i + 1 }

/-- Embedding of `normalize_df` (today is the `datetime.date.today()`
observed by the run). -/
def normalize_df (today : Date) (df : DF) : Except Unit (List StdRow) := do
  let col_name ← ci_col df.cols ["Name", "Company", "Issue Name"]
  let col_open ← ci_col df.cols ["Open", "Opening", "Open Date"]
  let col_close ← ci_col df.cols ["Close", "Closing", "Close Date"]
  let col_size ← ci_col df.cols ["IPO Size", "Issue Size", "Size"]
  let col_gmp ← ci_col df.cols ["GMP", "Grey Market Premium", "GM P"]
  let col_sub ← ci_col df.cols ["Sub", "Subscription", "Subs"]
  let col_listing ← ci_col df.cols ["Listing", "List", "Status"]
  let pre : List PreRow := df.rows.map (fun row =>
    { name := cleanName (safe_col df.cols col_name row)
      openCell := safe_col df.cols col_open row
      closeCell := safe_col df.cols col_close row
      sizeCell := safe_col df.cols col_size row
      gmpCell := safe_col df.cols col_gmp row
      subCell := safe_col df.cols col_sub row
      listingCell := safe_col df.cols col_listing row
      openParsed := parse_date_flexible (safe_col df.cols col_open row) today
      closeParsed := parse_date_flexible (safe_col df.cols col_close row) today })
  let kept := pre.filter (fun r =>
    ¬ (strContainsSub (strLower r.name) "sme" ∨
       strContainsSub (cellPyStr r.listingCell) "âŒ"))
  let sizes ← kept.mapM (fun r => parse_size_to_cr r.sizeCell)
  let cells := sizes.map sizeCellOpt
  let keys := sizeSortKeys cells
  let sorted := sortDesc ((kept.zip (cells.zip keys)))
  return List.zipWith finalizeRow sorted (List.range sorted.length)

/-- Embedding of `filter_relevant`: keep a record when its parsed close
date lies in the window from yesterday to today plus five days, or its
parsed open date is strictly after today.  A `None` (or, after
`fillna`, empty-string) parsed value fails the `isinstance` test and
the record is simply filtered out. -/
def filter_relevant (today : Date) (rows : List StdRow) : List StdRow :=
  rows.filter (fun r =>
    (match r.closeParsed with
     | some d => decide (today.toOrdinal - 1 ≤ d.toOrdinal ∧
                         d.toOrdinal ≤ today.toOrdinal + 5)
     | none => false) ||
    (match r.openParsed with
     | some d => decide (today.toOrdinal < d.toOrdinal)
     | none => false))

/-! ## HTML escaping and message formatting (`format_message_html`)

`html.escape(s)` replaces ampersand, then the angle brackets, then the
double quote and the apostrophe (the apostrophe becomes the hex
character reference).  The number display `f"{size:,.2f}"` is modelled
on the stored float value: finite values with banker's rounding to two
decimals and western three-digit grouping (the binary-double rounding
error of CPython floats is outside the model; the branch is exercised
here only on values it represents exactly), the infinite values as the
texts "inf" and "-inf". -/

/-- Embedding of Python `html.escape` with `quote=True`. -/
def htmlEscape (s : String) : String :=
  let l := s.data
  let l := replChars ['&'] "&amp;".data l
  let l := replChars ['<'] "&lt;".data l
  let l := replChars ['>'] "&gt;".data l
  let l := replChars ['"'] "&quot;".data l
  let l := replChars [Char.ofNat 39] "&#x27;".data l
  String.mk l

/-- Insert thousands separators into a little-endian digit list. -/
def groupLE : List Char → Nat → List Char
  | [], _ => []
  | c :: rest, i =>
    if i = 3 then ',' :: c :: groupLE rest 1 else c :: groupLE rest (i + 1)

/-- Python `f"{q:,.2f}"` on a rational. -/
def formatFix2 (q : ℚ) : String :=
  let a := |q|
  let x := a * 100
  let f : ℤ := ⌊x⌋
  let r := x - (f : ℚ)
  let n : ℤ :=
    if 1/2 < r then f + 1
    else if r < 1/2 then f
    else if f % 2 = 0 then f else f + 1
  let ip := (n / 100).toNat
  let fp := (n % 100).toNat
  let ipChars := (groupLE (natChars ip).reverse 0).reverse
  let s := String.mk (ipChars ++ '.' :: [dch (fp / 10), dch (fp % 10)])
  if q < 0 then "-" ++ s else s

/-- Title-case month abbreviations (strftime `%b`, C locale). -/
def monthsTitle : List String :=
  ["Jan", "Feb", "Mar", "Apr", "May", "Jun",
   "Jul", "Aug", "Sep", "Oct", "Nov", "Dec"]

/-- Python `date.strftime("%d-%b-%Y")`: zero-padded day, abbreviated
month, four-digit year (years in this pipeline are four digits). -/
def strftimeDbY (d : Date) : String :=
  String.mk ([dch (d.day / 10), dch (d.day % 10)] ++ '-' ::
    ((monthsTitle.getD (d.month - 1) "").data ++ '-' :: year4Chars d.year.toNat))

/-- The summary line of one record in the first loop. -/
def summaryLine (r : StdRow) : String :=
  String.mk (natChars r.rank) ++ ". <b>" ++ htmlEscape r.name ++ "</b> (Opens: " ++
    htmlEscape r.openText ++ ", Closes: " ++ htmlEscape r.closeText ++ ")"

/-- Python `f"{v:,.2f}"` on a stored float value: finite values are
formatted with banker's rounding and grouping; the infinite values
print as "inf" and "-inf"; NaN prints as "nan" (unreachable here, as a
NaN parsed size has become a missing cell before formatting). -/
def pyFormatFloat : PyFloat → String
  | .fin q => formatFix2 q
  | .inf => "inf"
  | .ninf => "-inf"
  | .nan => "nan"

/-- The size display of the detail loop: the stored parsed size
formatted when present and not NaN (`pd.notnull` fails on NaN),
otherwise the raw size text (or "--" when that is empty) taken
verbatim from the table. -/
def sizeDisp (r : StdRow) : String :=
  match r.sizeNum with
  | some .nan => if r.sizeText = "" then "--" else r.sizeText
  | some v => pyFormatFloat v ++ " Cr"
  | none => if r.sizeText = "" then "--" else r.sizeText

/-- The four detail lines of one record (plus the blank spacer). -/
def detailLines (r : StdRow) : List String :=
  ["ğŸ”¸ <b>" ++ htmlEscape r.name ++ "</b>",
   "â€¢ ğŸ’° Issue Size: " ++ sizeDisp r,
   "â€¢ ğŸ“ˆ GMP: " ++ htmlEscape r.gmpDisplay ++ " | ğŸ“Š Sub: " ++
     (if htmlEscape r.subText = "" then "--" else htmlEscape r.subText),
   "â€¢ ğŸ—“ " ++ htmlEscape r.openText ++ " â€“ " ++ htmlEscape r.closeText ++
     " | Listing: " ++ (if htmlEscape r.listingText = "" then "--" else htmlEscape r.listingText),
   ""]

/-- Embedding of `format_message_html`. -/
def format_message_html (today : Date) (rows : List StdRow) : String :=
  let todayStr := strftimeDbY today
  if rows = [] then
    "<b>ğŸ“¢ IPO Updates - " ++ htmlEscape todayStr ++ "</b>\n\nNo upcoming/current IPOs found."
  else
    let lines :=
      ["<b>ğŸ“¢ IPO Updates - " ++ htmlEscape todayStr ++ "</b>", "", "ğŸ”œ <b>Upcoming / Current IPOs</b>"] ++
      rows.map summaryLine ++
      ["", "ğŸ“Š <b>Details</b>"] ++
      (rows.map detailLines).flatten
    pyStrip (String.intercalate "\n" lines)

/-! ## The run driver (`main` after the fetch)

The fetch and the Telegram delivery are external collaborators; the
embedded driver starts from the list of tables `find_and_parse_tables`
produced (the empty list when the page has no table elements) and ends
with the formatted message.  Exit paths of `main`: printing "no tables"
or "all empty" and exiting 0 is the `noData` outcome; an exception from
`normalize_df` is caught, printed and exited 1, the `error` outcome;
otherwise the formatted message is sent and the run exits 0, the
`summary` outcome (including the empty-list message). -/

/-- Result of one run. -/
inductive Outcome where
  | noData
  | summary (msg : String)
  | error
deriving DecidableEq, Repr

/-- Is the frame empty (pandas `.empty`: either axis has length 0)? -/
def DF.isEmptyDF (df : DF) : Bool := df.rows.length = 0 ∨ df.cols.length = 0

/-- Drop the columns whose every cell is missing
(`dropna(how="all", axis=1)`). -/
def dropnaCols (df : DF) : DF :=
  let keep := (List.range df.cols.length).filter
    (fun j => df.rows.any (fun r => (r.getD j none).isSome))
  { cols := keep.map (fun j => df.cols.getD j (.idx 0)),
    rows := df.rows.map (fun r => keep.map (fun j => r.getD j none)) }

/-- Drop the rows whose every cell is missing
(`dropna(how="all", axis=0)`). -/
def dropnaRows (df : DF) : DF :=
  { cols := df.cols,
    rows := df.rows.filter (fun r =>
      (List.range df.cols.length).any (fun j => (r.getD j none).isSome)) }

/-- Python `max(dfs, key=lambda x: x.shape[0] * x.shape[1])`: the first
frame with the largest cell count. -/
def pickBest (dfs : List DF) : Option DF :=
  dfs.foldl (fun acc d =>
    match acc with
    | none => some d
    | some b => if d.rows.length * d.cols.length > b.rows.length * b.cols.length
                then some d else acc) none

/-- Embedding of `main` from the point where the page has been fetched
and parsed into tables. -/
def runPipeline (today : Date) (dfs : List DF) : Outcome :=
  if dfs.isEmpty then .noData
  else
    let cleaned := (dfs.filter (fun d => ¬ (dropnaCols d).isEmptyDF)).map
      (fun d => dropnaRows (dropnaCols d))
    if cleaned.isEmpty then .noData
    else
      match pickBest cleaned with
      | none => .noData
      | some best =>
        match normalize_df today best with
        | .error _ => .error
        | .ok rows => .summary (format_message_html today (filter_relevant today rows))

/-! ## Spec-modelled threshold filter and weighted score

The repository also contains near-duplicate script variants of this
pipeline (spec section 2 describes them as the remaining 40 percent of
the repository logic); the minimum-threshold filter and the weighted
0.7/0.3 score live in those variants, not in `src/ipo_gmp_telegram.py`,
whose `normalize_df` ranks by raw size only.  The two definitions below
are therefore modelled from the spec, not translated from `src/`. -/

/-- Modelled from the spec: a record as seen by the threshold filter
and the weighted scorer of the filter-and-rank stage (spec section
4.5); the monetary size in Crore and the premium amount, each optional
because per-field parse failures yield "absent". -/
structure SpecRecord where
  name : String
  sizeCr : Option ℚ
  premiumAmount : Option ℚ
deriving DecidableEq, Repr

/-- Modelled from the spec: the minimum-threshold filter of spec
section 4.5 — "exclude records whose normalized size is at or below a
configurable minimum, and whose premium amount is at or below a
configurable minimum — both thresholds are tunable parameters"; a
record missing a required field is excluded by the filter (spec
section 7). -/
def specFilterThresholds (minSizeCr minPremium : ℚ) (rs : List SpecRecord) :
    List SpecRecord :=
  rs.filter (fun r =>
    match r.sizeCr, r.premiumAmount with
    | some sz, some p => decide (minSizeCr < sz) && decide (minPremium < p)
    | _, _ => false)

/-- Largest value in a list, 0 when empty (all values scored are
nonnegative sizes and premiums of surviving records). -/
def maxOf (xs : List ℚ) : ℚ := xs.foldl max 0

/-- Modelled from the spec: the weighted score of spec section 4.5 —
normalize size and premium by the maximum present in the surviving set
(0 when that maximum is 0), then 0.7 times normalized size plus 0.3
times normalized premium. -/
def specScore (survivors : List SpecRecord) (r : SpecRecord) : ℚ :=
  let maxSize := maxOf (survivors.map (fun x => x.sizeCr.getD 0))
  let maxPrem := maxOf (survivors.map (fun x => x.premiumAmount.getD 0))
  let ns := if maxSize = 0 then 0 else (r.sizeCr.getD 0) / maxSize
  let np := if maxPrem = 0 then 0 else (r.premiumAmount.getD 0) / maxPrem
  (7 / 10) * ns + (3 / 10) * np

/-- Stable descending insertion on scored spec records. -/
def specInsertDesc (x : SpecRecord × ℚ) :
    List (SpecRecord × ℚ) → List (SpecRecord × ℚ)
  | [] => [x]
  | y :: ys => if x.2 ≥ y.2 then x :: y :: ys else y :: specInsertDesc x ys

/-- Modelled from the spec: rank the surviving set by descending score
with a stable sort and assign 1-based ranks (spec section 4.5). -/
def specRank (survivors : List SpecRecord) : List (SpecRecord × ℚ × Nat) :=
  let scored := survivors.map (fun r => (r, specScore survivors r))
  let sorted := scored.foldr specInsertDesc []
  List.zipWith (fun x i => (x.1, x.2, i + 1)) sorted (List.range sorted.length)

/-! ## Concrete fixtures used by the scenario and counterexample theorems -/

/-- The canonical seven-column header row of the scraped table. -/
def stdHeaders : List Header :=
  [.str "Name", .str "Open", .str "Close", .str "IPO Size", .str "GMP",
   .str "Sub", .str "Listing"]

/-- A reference "today" for concrete runs: 1 October 2025. -/
def dateT0 : Date := ⟨2025, 10, 1⟩

/-- Message text of a summary outcome (empty for the other outcomes). -/
def outcomeMsg : Outcome → String
  | .summary m => m
  | _ => ""

/-- Is the outcome a summary? -/
def Outcome.isSummary : Outcome → Bool
  | .summary _ => true
  | _ => false

/-- Table with an in-window record whose size text is unparseable and
contains an HTML special character, and whose name also contains one. -/
def dfC8 : DF :=
  ⟨stdHeaders,
   [[some "A<B", some "01-Oct", some "03-Oct", some "<5 Cr", none, none, none]]⟩

/-- Table whose largest-size record is filtered out by the date window:
Alpha (500 Cr) closed on 15 March and has no future open date, Beta
(100 Cr) closes inside the window. -/
def dfC3 : DF :=
  ⟨stdHeaders,
   [[some "Alpha", none, some "15-Mar", some "500 Cr", none, none, none],
    [some "Beta", some "30-Sep", some "02-Oct", some "100 Cr", none, none, none]]⟩

/-- Table whose first record has an unparseable size and whose second
record is 500 Cr. -/
def dfC10 : DF :=
  ⟨stdHeaders,
   [[some "Alpha", some "10-Oct", some "15-Mar", some "abc", none, none, none],
    [some "Beta", some "30-Sep", some "02-Oct", some "500 Cr", none, none, none]]⟩

/-- A single-cell table as produced for a header-less one-cell HTML
table: one positional integer column label and one row. -/
def dfSingleCell : DF := ⟨[.idx 0], [[some "x"]]⟩

/-- C7, counterexample.  Three behaviors of `ci_col` refute the claim.
First, the claim says the resolver returns without raising for headers
that are not strings, but the dict comprehension calls `.lower()` on
every label before any comparison, so a positional integer label
raises `AttributeError` out of `ci_col`.  Second, the claim says the
exact phase returns the first column whose header exactly matches an
alias: with the source's open-column aliases and the columns
["Open Date", "Open"], the first column exactly matches the alias
"Open Date" (third conjunct), yet the resolver returns the second
column "Open", because the aliases are tried in order and "Open" comes
first.  Third, among columns duplicated up to case ["open", "OPEN"]
the resolver returns the last one, "OPEN", not the first: the dict
comprehension keeps the last value written for the shared lowercased
key. -/
theorem C7_counterexample :
    ci_col [.idx 0] ["Name", "Company", "Issue Name"] = .error () ∧
    ci_col [.str "Open Date", .str "Open"] ["Open", "Opening", "Open Date"] =
      .ok (some (.str "Open")) ∧
    (Header.str "Open Date").lowerStr = strLower "Open Date" ∧
    ci_col [.str "open", .str "OPEN"] ["Open", "Opening", "Open Date"] =
      .ok (some (.str "OPEN")) := by
  refine ⟨rfl, rfl, rfl, rfl⟩

/-- C9, counterexample.  The claim says a run whose selected table
degenerates to a single cell ends with the no-data outcome, but `main`
has no single-cell guard: the one-cell table (with its positional
integer header) reaches `normalize_df`, whose `ci_col` call raises, and
`main` exits with status 1 — an error outcome, not no-data. -/
theorem C9_counterexample : runPipeline dateT0 [dfSingleCell] = .error := by
  rfl

/-- C3, counterexample.  The final ranked output of the source is
`filter_relevant(normalize_df(df))`; ranks are assigned inside
`normalize_df` before the relevance filter, so when the filter removes
the rank-1 record the output list keeps rank 2 as its only rank value
instead of being renumbered 1..n. -/
theorem C3_counterexample :
    (normalize_df dateT0 dfC3).map
      (fun rs => (filter_relevant dateT0 rs).map StdRow.rank) = .ok [2] := by
  with_unfolding_all rfl

/-- C10, code-bug evaluation.  With one unparseable size ("abc") and one
500 Cr size, `fillna("")` turns the missing parsed size into the empty
string, `float("")` raises inside the column-wide try of the sort-key
step, and the except arm zeroes every key: the unparseable record stays
above the 500 Cr record (ranks keep input order) instead of sorting
below it as a 0-sized record. -/
theorem C10_theorem :
    (normalize_df dateT0 dfC10).map
      (fun rs => rs.map (fun r => (r.name, r.rank, r.sizeSort))) =
      .ok [("Alpha", 1, PyFloat.fin 0), ("Beta", 2, PyFloat.fin 0)] := by
  rfl

/-- C8, code-bug evaluation.  In the formatted message the escaped name
appears with its angle bracket rewritten, but the raw size fallback is
interpolated unescaped: the message contains the literal text
"Issue Size: <5 Cr". -/
theorem C8_theorem :
    (runPipeline dateT0 [dfC8]).isSummary = true ∧
    strContainsSub (outcomeMsg (runPipeline dateT0 [dfC8])) "<b>A&lt;B</b>" = true ∧
    strContainsSub (outcomeMsg (runPipeline dateT0 [dfC8])) "Issue Size: <5 Cr" = true := by
  refine ⟨?_, ?_, ?_⟩ <;> with_unfolding_all rfl

/-! ## C4: the sliding-window relevance filter -/

/-- A record whose close date parsed to 15 March 2025 and whose open
date did not parse. -/
def rowMarch15 : StdRow :=
  { name := "Alpha", openText := "", closeText := "15-Mar", sizeText := "",
    gmpDisplay := "", subText := "", listingText := "", openParsed := none,
    closeParsed := some ⟨2025, 3, 15⟩, sizeNum := none, sizeSort := .fin 0, rank := 1 }

/-- C4.  Under the sliding-window policy a record is kept by
`filter_relevant` exactly when its parsed close date lies in the window
from yesterday to today plus five days or its parsed open date is
strictly after today; a record with no parsed dates simply fails both
disjuncts and is filtered out (the filter is a total function — no
fault).  In particular the record whose close date parsed to 2025-03-15
is excluded when today is 2025-01-01. -/
theorem C4_theorem :
    (∀ (t : Date) (rows : List StdRow) (r : StdRow),
       r ∈ filter_relevant t rows ↔
         r ∈ rows ∧
           ((∃ d, r.closeParsed = some d ∧
               t.toOrdinal - 1 ≤ d.toOrdinal ∧ d.toOrdinal ≤ t.toOrdinal + 5) ∨
            (∃ d, r.openParsed = some d ∧ t.toOrdinal < d.toOrdinal))) ∧
    filter_relevant ⟨2025, 1, 1⟩ [rowMarch15] = [] := by
  constructor
  · intro t rows r
    unfold filter_relevant
    rw [List.mem_filter]
    constructor
    · rintro ⟨hm, hb⟩
      refine ⟨hm, ?_⟩
      rcases Bool.or_eq_true_iff.mp hb with h | h
      · left
        cases hc : r.closeParsed with
        | none => rw [hc] at h; exact absurd h (by simp)
        | some d =>
          rw [hc] at h
          exact ⟨d, rfl, of_decide_eq_true h⟩
      · right
        cases ho : r.openParsed with
        | none => rw [ho] at h; exact absurd h (by simp)
        | some d =>
          rw [ho] at h
          exact ⟨d, rfl, of_decide_eq_true h⟩
    · rintro ⟨hm, hcond⟩
      refine ⟨hm, ?_⟩
      apply Bool.or_eq_true_iff.mpr
      rcases hcond with ⟨d, hd, hw⟩ | ⟨d, hd, hw⟩
      · left; rw [hd]; exact decide_eq_true hw
      · right; rw [hd]; exact decide_eq_true hw
  · rfl

/-! ## C2: the configurable minimum-threshold filter (spec-modelled) -/

/-- C2 (spec-modelled).  For every configured threshold pair the filter
excludes each record whose size is at or below the minimum size and
each record whose premium amount is at or below the minimum premium;
membership in the filtered set is exactly "present in the input with
size and premium both present and strictly above their thresholds".
The thresholds are universally quantified parameters of the definition,
not constants. -/
theorem C2_theorem :
    ∀ (minSizeCr minPremium : ℚ) (rs : List SpecRecord) (r : SpecRecord),
      (∀ v, r.sizeCr = some v → v ≤ minSizeCr →
         r ∉ specFilterThresholds minSizeCr minPremium rs) ∧
      (∀ p, r.premiumAmount = some p → p ≤ minPremium →
         r ∉ specFilterThresholds minSizeCr minPremium rs) ∧
      (r ∈ specFilterThresholds minSizeCr minPremium rs ↔
         r ∈ rs ∧ ∃ v p, r.sizeCr = some v ∧ r.premiumAmount = some p ∧
           minSizeCr < v ∧ minPremium < p) := by
  intro ms mp rs r
  have hmem : r ∈ specFilterThresholds ms mp rs ↔
      r ∈ rs ∧ ∃ v p, r.sizeCr = some v ∧ r.premiumAmount = some p ∧
        ms < v ∧ mp < p := by
    unfold specFilterThresholds
    rw [List.mem_filter]
    constructor
    · rintro ⟨hm, hb⟩
      refine ⟨hm, ?_⟩
      cases hs : r.sizeCr with
      | none => rw [hs] at hb; exact absurd hb (by simp)
      | some v =>
        cases hp : r.premiumAmount with
        | none => rw [hs, hp] at hb; exact absurd hb (by simp)
        | some p =>
          rw [hs, hp] at hb
          rcases Bool.and_eq_true_iff.mp hb with ⟨h1, h2⟩
          exact ⟨v, p, rfl, rfl, of_decide_eq_true h1, of_decide_eq_true h2⟩
    · rintro ⟨hm, v, p, hs, hp, h1, h2⟩
      refine ⟨hm, ?_⟩
      rw [hs, hp]
      exact Bool.and_eq_true_iff.mpr ⟨decide_eq_true h1, decide_eq_true h2⟩
  refine ⟨?_, ?_, hmem⟩
  · intro v hv hle hmem2
    rcases (hmem.mp hmem2).2 with ⟨v2, p2, hv2, _, hlt, _⟩
    rw [hv] at hv2
    exact absurd hlt (by cases hv2; exact not_lt.mpr hle)
  · intro p hp hle hmem2
    rcases (hmem.mp hmem2).2 with ⟨v2, p2, _, hp2, _, hlt⟩
    rw [hp] at hp2
    exact absurd hlt (by cases hp2; exact not_lt.mpr hle)

/-- A 300 Cr record with a premium of 5, below the observed thresholds. -/
def specRecSmall : SpecRecord := ⟨"Small", some 300, some 5⟩

/-- C2, witness: with the observed configuration (400 Cr, 8.5) the
300 Cr record is excluded both for size and for premium. -/
theorem C2_witness :
    specRecSmall ∉ specFilterThresholds 400 (17 / 2) [specRecSmall] :=
  (C2_theorem 400 (17 / 2) [specRecSmall] specRecSmall).1 300 rfl (by norm_num)

/-! ## C1: the weighted score (spec-modelled) -/

/-- Auxiliary: a left fold of `max` bounds every element, bounds its
seed, and is either the seed or an element. -/
theorem foldl_max_spec (xs : List ℚ) (a : ℚ) :
    (∀ x ∈ xs, x ≤ xs.foldl max a) ∧ a ≤ xs.foldl max a ∧
      (xs.foldl max a = a ∨ xs.foldl max a ∈ xs) := by
  induction xs generalizing a with
  | nil => simp
  | cons y ys ih =>
    simp only [List.foldl_cons]
    rcases ih (max a y) with ⟨h1, h2, h3⟩
    refine ⟨?_, ?_, ?_⟩
    · intro x hx
      rcases List.mem_cons.mp hx with rfl | hx2
      · exact le_trans (le_max_right a x) h2
      · exact h1 x hx2
    · exact le_trans (le_max_left a y) h2
    · rcases h3 with h | h
      · rcases max_choice a y with hm | hm
        · left; rw [h, hm]
        · right; rw [h, hm]; exact List.mem_cons_self y ys
      · right; exact List.mem_cons_of_mem y h

/-- Maximum characterization of `maxOf` over nonnegative values: it
bounds every element and is a value present in the list unless it is 0. -/
theorem maxOf_spec (xs : List ℚ) :
    (∀ x ∈ xs, x ≤ maxOf xs) ∧ (maxOf xs = 0 ∨ maxOf xs ∈ xs) := by
  rcases foldl_max_spec xs 0 with ⟨h1, _, h3⟩
  exact ⟨h1, h3⟩

/-- The two surviving records of the spec scenario: 500 Cr with a
premium of 20, and 450 Cr with a premium of 10. -/
def specRec1 : SpecRecord := ⟨"R1", some 500, some 20⟩

/-- Second scenario record. -/
def specRec2 : SpecRecord := ⟨"R2", some 450, some 10⟩

/-- C1 (spec-modelled).  For a surviving set the score of each record is
0.7 times its size divided by the maximum size present plus 0.3 times
its premium divided by the maximum premium present, a normalized term
being 0 when its maximum is 0 (the exhibited `M` and `P` bound every
size and premium of the set and are present in it unless 0); and in the
scenario with thresholds (0,0) both records survive, the 500 Cr/20
record outscores the 450 Cr/10 record, and they receive ranks 1 and 2. -/
theorem C1_theorem :
    (∀ (survivors : List SpecRecord) (r : SpecRecord), r ∈ survivors →
       ∃ M P,
         (∀ x ∈ survivors, x.sizeCr.getD 0 ≤ M) ∧
         (M = 0 ∨ M ∈ survivors.map (fun x => x.sizeCr.getD 0)) ∧
         (∀ x ∈ survivors, x.premiumAmount.getD 0 ≤ P) ∧
         (P = 0 ∨ P ∈ survivors.map (fun x => x.premiumAmount.getD 0)) ∧
         specScore survivors r =
           7 / 10 * (if M = 0 then 0 else r.sizeCr.getD 0 / M) +
           3 / 10 * (if P = 0 then 0 else r.premiumAmount.getD 0 / P)) ∧
    specFilterThresholds 0 0 [specRec1, specRec2] = [specRec1, specRec2] ∧
    specScore [specRec1, specRec2] specRec1 >
      specScore [specRec1, specRec2] specRec2 ∧
    (specRank [specRec1, specRec2]).map (fun x => (x.1.name, x.2.2)) =
      [("R1", 1), ("R2", 2)] := by
  refine ⟨?_, ?_, ?_, ?_⟩
  · intro survivors r _
    refine ⟨maxOf (survivors.map (fun x => x.sizeCr.getD 0)),
            maxOf (survivors.map (fun x => x.premiumAmount.getD 0)), ?_, ?_, ?_, ?_, ?_⟩
    · intro x hx
      exact (maxOf_spec _).1 _ (List.mem_map_of_mem _ hx)
    · exact (maxOf_spec _).2
    · intro x hx
      exact (maxOf_spec _).1 _ (List.mem_map_of_mem _ hx)
    · exact (maxOf_spec _).2
    · rfl
  · with_unfolding_all rfl
  · have h1 : specScore [specRec1, specRec2] specRec1 = 1 := by
      with_unfolding_all rfl
    have h2 : specScore [specRec1, specRec2] specRec2 = 39 / 50 := by
      with_unfolding_all rfl
    rw [h1, h2]; norm_num
  · with_unfolding_all rfl

/-- C1, witness: the score equation instantiated at the first scenario
record inside its surviving set. -/
theorem C1_witness :
    ∃ M P,
      (∀ x ∈ [specRec1, specRec2], x.sizeCr.getD 0 ≤ M) ∧
      (M = 0 ∨ M ∈ [specRec1, specRec2].map (fun x => x.sizeCr.getD 0)) ∧
      (∀ x ∈ [specRec1, specRec2], x.premiumAmount.getD 0 ≤ P) ∧
      (P = 0 ∨ P ∈ [specRec1, specRec2].map (fun x => x.premiumAmount.getD 0)) ∧
      specScore [specRec1, specRec2] specRec1 =
        7 / 10 * (if M = 0 then 0 else specRec1.sizeCr.getD 0 / M) +
        3 / 10 * (if P = 0 then 0 else specRec1.premiumAmount.getD 0 / P) :=
  C1_theorem.1 [specRec1, specRec2] specRec1 (List.mem_cons_self _ _)

/-! ## C9: data-absence outcomes of the run driver -/

/-- C9, amended.  A run with no parsed tables ends as no-data, and a run
in which every parsed table is empty after dropping all-missing columns
ends as no-data; the single-cell case of the original claim is the
subject of the counterexample (no single-cell guard exists in `main`). -/
theorem C9_amended :
    (∀ t : Date, runPipeline t [] = .noData) ∧
    (∀ (t : Date) (dfs : List DF), dfs ≠ [] →
       (∀ d ∈ dfs, (dropnaCols d).isEmptyDF = true) →
       runPipeline t dfs = .noData) := by
  constructor
  · intro t; rfl
  · intro t dfs hne hall
    unfold runPipeline
    rw [if_neg (by simp [List.isEmpty_iff, hne])]
    have hfil : dfs.filter (fun d => ¬ (dropnaCols d).isEmptyDF) = [] := by
      rw [List.filter_eq_nil_iff]
      intro d hd
      simp [hall d hd]
    rw [hfil]
    rfl

/-- A one-column table whose only cell is missing. -/
def dfAllNaN : DF := ⟨[.str "A"], [[none]]⟩

/-- C9, witness: a run whose single parsed table is empty after cleanup
ends as no-data. -/
theorem C9_witness : runPipeline dateT0 [dfAllNaN] = .noData :=
  C9_amended.2 dateT0 [dfAllNaN] (by simp)
    (by intro d hd; rw [List.mem_singleton.mp hd]; rfl)

/-! ## C7: the column resolver on all-string headers -/

/-- A successful `find?` splits its list at the first hit. -/
theorem find?_split {α : Type} {p : α → Bool} {l : List α} {x : α}
    (h : l.find? p = some x) :
    p x = true ∧ ∃ l1 l2, l = l1 ++ x :: l2 ∧ ∀ y ∈ l1, p y = false := by
  induction l with
  | nil => cases h
  | cons a t ih =>
    rw [List.find?_cons] at h
    cases hp : p a with
    | true =>
      rw [hp] at h
      have h2 : some a = some x := h
      injection h2 with he
      subst he
      exact ⟨hp, [], t, rfl, by intro y hy; cases hy⟩
    | false =>
      rw [hp] at h
      have h2 : List.find? p t = some x := h
      rcases ih h2 with ⟨hx, l1, l2, rfl, hfail⟩
      refine ⟨hx, a :: l1, l2, rfl, ?_⟩
      intro y hy
      rcases List.mem_cons.mp hy with rfl | hy2
      · exact hp
      · exact hfail y hy2

/-- A successful `findSome?` splits its list at the first hit. -/
theorem findSome?_split {α β : Type} {f : α → Option β} {l : List α} {b : β}
    (h : l.findSome? f = some b) :
    ∃ l1 a l2, l = l1 ++ a :: l2 ∧ f a = some b ∧ ∀ x ∈ l1, f x = none := by
  induction l with
  | nil => cases h
  | cons a t ih =>
    rw [List.findSome?_cons] at h
    cases hfa : f a with
    | some v =>
      rw [hfa] at h
      injection h with he
      subst he
      exact ⟨[], a, t, rfl, hfa, by intro x hx; cases hx⟩
    | none =>
      rw [hfa] at h
      rcases ih h with ⟨l1, a2, l2, rfl, hf2, hfail⟩
      refine ⟨a :: l1, a2, l2, rfl, hf2, ?_⟩
      intro x hx
      rcases List.mem_cons.mp hx with rfl | hx2
      · exact hfa
      · exact hfail x hx2

/-- A successful `find?` on the reverse splits the original list at the
last hit. -/
theorem reverse_find?_split {α : Type} {p : α → Bool} {l : List α} {x : α}
    (h : l.reverse.find? p = some x) :
    p x = true ∧ ∃ l1 l2, l = l1 ++ x :: l2 ∧ ∀ y ∈ l2, p y = false := by
  obtain ⟨hp, r1, r2, hrev, hfail⟩ := find?_split h
  refine ⟨hp, r2.reverse, r1.reverse, ?_, ?_⟩
  · have h2 := congrArg List.reverse hrev
    rw [List.reverse_reverse] at h2
    rw [h2]
    simp
  · intro y hy
    exact hfail y (List.mem_reverse.mp hy)

/-- C7, amended.  For a table whose headers are all strings the
resolver returns without raising, and which column it returns is fully
determined: whenever some alias has an exactly (case-insensitively)
matching column, the winning alias is the first such alias in the
alias list and the returned column is the last column whose lowercased
header equals it; when no alias matches exactly but some column
contains an alias as a case-insensitive substring, the returned column
is the first such column; and the result is absent exactly when no
header matches any alias either way.  Non-string headers raise (see
the counterexample). -/
theorem C7_amended :
    ∀ (cols : List Header) (cands : List String),
      (∀ c ∈ cols, c.isStr = true) →
      ∃ res : Option Header, ci_col cols cands = .ok res ∧
        ((∃ cand ∈ cands, ∃ c0 ∈ cols, c0.lowerStr = strLower cand) →
           ∃ pre cand0 post ck l1 l2,
             cands = pre ++ cand0 :: post ∧
             (∀ cd ∈ pre, ∀ c0 ∈ cols, c0.lowerStr ≠ strLower cd) ∧
             res = some ck ∧ ck.lowerStr = strLower cand0 ∧
             cols = l1 ++ ck :: l2 ∧ (∀ x ∈ l2, x.lowerStr ≠ strLower cand0)) ∧
        ((∀ cd ∈ cands, ∀ c0 ∈ cols, c0.lowerStr ≠ strLower cd) →
         (∃ c1 ∈ cols, ∃ cd ∈ cands,
            strContainsSub (strLower c1.pyStr) (strLower cd) = true) →
           ∃ ck l1 l2, res = some ck ∧
             (∃ cd ∈ cands, strContainsSub (strLower ck.pyStr) (strLower cd) = true) ∧
             cols = l1 ++ ck :: l2 ∧
             (∀ x ∈ l1, ∀ cd ∈ cands,
                strContainsSub (strLower x.pyStr) (strLower cd) = false)) ∧
        (res = none ↔ ∀ c0 ∈ cols, ∀ cd ∈ cands,
           c0.lowerStr ≠ strLower cd ∧
           strContainsSub (strLower c0.pyStr) (strLower cd) = false) := by
  intro cols cands hstr
  unfold ci_col
  rw [if_pos (List.all_eq_true.mpr hstr)]
  cases hex : cands.findSome? (fun cand =>
      cols.reverse.find? (fun c => c.lowerStr = strLower cand)) with
  | some ck =>
    obtain ⟨pre, cand0, post, hcands, hf, hprefail⟩ := findSome?_split hex
    obtain ⟨hp, l1, l2, hcols, hfail2⟩ := reverse_find?_split hf
    have hckmem : ck ∈ cols := by
      rw [hcols]
      exact List.mem_append_right _ (List.mem_cons_self _ _)
    have hcand0mem : cand0 ∈ cands := by
      rw [hcands]
      exact List.mem_append_right _ (List.mem_cons_self _ _)
    refine ⟨some ck, rfl, ?_, ?_, ?_⟩
    · intro _
      refine ⟨pre, cand0, post, ck, l1, l2, hcands, ?_, rfl,
        of_decide_eq_true hp, hcols, ?_⟩
      · intro cd hcd c0 hc0 he
        have h1 := hprefail cd hcd
        have h2 := List.find?_eq_none.mp h1 c0 (List.mem_reverse.mpr hc0)
        exact h2 (decide_eq_true he)
      · intro x hx he
        have h3 := hfail2 x hx
        rw [decide_eq_true he] at h3
        cases h3
    · intro hnone _
      exact absurd (of_decide_eq_true hp) (hnone cand0 hcand0mem ck hckmem)
    · constructor
      · intro h; cases h
      · intro hall
        exact absurd (of_decide_eq_true hp) (hall ck hckmem cand0 hcand0mem).1
  | none =>
    cases hsub : cols.find? (fun c =>
        cands.any (fun cand => strContainsSub (strLower c.pyStr) (strLower cand))) with
    | some ck =>
      obtain ⟨hp, l1, l2, hcols, hfail1⟩ := find?_split hsub
      have hckmem : ck ∈ cols := by
        rw [hcols]
        exact List.mem_append_right _ (List.mem_cons_self _ _)
      refine ⟨some ck, rfl, ?_, ?_, ?_⟩
      · rintro ⟨cand, hcand, c0, hc0, he⟩
        have h1 := List.findSome?_eq_none_iff.mp hex cand hcand
        have h2 := List.find?_eq_none.mp h1 c0 (List.mem_reverse.mpr hc0)
        exact absurd (decide_eq_true he) h2
      · intro _ _
        refine ⟨ck, l1, l2, rfl, List.any_eq_true.mp hp, hcols, ?_⟩
        intro x hx cd hcd
        have h1 := hfail1 x hx
        rw [List.any_eq_false] at h1
        have h2 := h1 cd hcd
        simpa using h2
      · constructor
        · intro h; cases h
        · intro hall
          rcases List.any_eq_true.mp hp with ⟨cd, hcd, hsubT⟩
          have h2 := (hall ck hckmem cd hcd).2
          rw [hsubT] at h2
          cases h2
    | none =>
      refine ⟨none, rfl, ?_, ?_, ?_⟩
      · rintro ⟨cand, hcand, c0, hc0, he⟩
        have h1 := List.findSome?_eq_none_iff.mp hex cand hcand
        have h2 := List.find?_eq_none.mp h1 c0 (List.mem_reverse.mpr hc0)
        exact absurd (decide_eq_true he) h2
      · rintro hne ⟨c1, hc1, cd, hcd, hsubT⟩
        have h1 := List.find?_eq_none.mp hsub c1 hc1
        rw [Bool.not_eq_true, List.any_eq_false] at h1
        exact absurd hsubT (h1 cd hcd)
      · constructor
        · intro _ c0 hc0 cd hcd
          constructor
          · intro he
            have h1 := List.findSome?_eq_none_iff.mp hex cd hcd
            have h2 := List.find?_eq_none.mp h1 c0 (List.mem_reverse.mpr hc0)
            exact h2 (decide_eq_true he)
          · have h1 := List.find?_eq_none.mp hsub c0 hc0
            rw [Bool.not_eq_true, List.any_eq_false] at h1
            have h2 := h1 cd hcd
            simpa using h2
        · intro _
          rfl

/-- C7, witness: resolving the scenario header row with the GMP
aliases returns without raising. -/
theorem C7_witness :
    ∃ res : Option Header,
      ci_col stdHeaders ["GMP", "Grey Market Premium", "GM P"] = .ok res :=
  match C7_amended stdHeaders ["GMP", "Grey Market Premium", "GM P"]
      (by intro c hc; fin_cases hc <;> rfl) with
  | ⟨res, h⟩ => ⟨res, h.1⟩

/-! ## C3: rank assignment in the source pipeline -/

/-- Helper: bind of the `Except` monad hitting `ok` splits. -/
theorem exceptBind_ok {α β : Type} {x : Except Unit α} {f : α → Except Unit β} {b : β}
    (h : (x >>= f) = .ok b) : ∃ a, x = .ok a ∧ f a = .ok b := by
  cases x with
  | error e => exact absurd h (by simp [Bind.bind, Except.bind])
  | ok a => exact ⟨a, rfl, by simpa [Bind.bind, Except.bind] using h⟩

/-- The descending key order is total. -/
theorem keyGe_total (a b : PyFloat) :
    PyFloat.keyGe a b = true ∨ PyFloat.keyGe b a = true := by
  cases a <;> cases b <;> simp [PyFloat.keyGe] <;> exact le_total _ _

/-- The descending key order is transitive. -/
theorem keyGe_trans {a b c : PyFloat} (h1 : PyFloat.keyGe a b = true)
    (h2 : PyFloat.keyGe b c = true) : PyFloat.keyGe a c = true := by
  cases a <;> cases b <;> cases c <;> simp_all [PyFloat.keyGe]
  exact le_trans h2 h1

/-- Membership in an insertion. -/
theorem mem_insertDesc {a x : PreRow × Option PyFloat × PyFloat} :
    ∀ {l : List (PreRow × Option PyFloat × PyFloat)},
      a ∈ insertDesc x l → a = x ∨ a ∈ l := by
  intro l
  induction l with
  | nil => intro h; simpa [insertDesc] using h
  | cons y ys ih =>
    intro h
    unfold insertDesc at h
    by_cases hc : PyFloat.keyGe x.2.2 y.2.2 = true
    · rw [if_pos hc] at h
      rcases List.mem_cons.mp h with rfl | h2
      · exact Or.inl rfl
      · exact Or.inr h2
    · rw [if_neg hc] at h
      rcases List.mem_cons.mp h with rfl | h2
      · exact Or.inr (List.mem_cons_self _ _)
      · rcases ih h2 with h3 | h3
        · exact Or.inl h3
        · exact Or.inr (List.mem_cons_of_mem _ h3)

/-- Inserting preserves monotone ordering by the key. -/
theorem insertDesc_pairwise {x : PreRow × Option PyFloat × PyFloat}
    {l : List (PreRow × Option PyFloat × PyFloat)}
    (h : List.Pairwise (fun a b => PyFloat.keyGe a.2.2 b.2.2 = true) l) :
    List.Pairwise (fun a b => PyFloat.keyGe a.2.2 b.2.2 = true) (insertDesc x l) := by
  induction l with
  | nil => simpa [insertDesc]
  | cons y ys ih =>
    rcases List.pairwise_cons.mp h with ⟨hy, hys⟩
    unfold insertDesc
    by_cases hc : PyFloat.keyGe x.2.2 y.2.2 = true
    · rw [if_pos hc]
      refine List.pairwise_cons.mpr ⟨?_, h⟩
      intro b hb
      rcases List.mem_cons.mp hb with rfl | hb2
      · exact hc
      · exact keyGe_trans hc (hy b hb2)
    · rw [if_neg hc]
      refine List.pairwise_cons.mpr ⟨?_, ih hys⟩
      intro b hb
      rcases mem_insertDesc hb with rfl | hb2
      · exact (keyGe_total _ _).resolve_left hc
      · exact hy b hb2

/-- The stable descending sort is sorted by non-increasing key. -/
theorem sortDesc_pairwise (l : List (PreRow × Option PyFloat × PyFloat)) :
    List.Pairwise (fun a b => PyFloat.keyGe a.2.2 b.2.2 = true) (sortDesc l) := by
  unfold sortDesc
  induction l with
  | nil => simp
  | cons y ys ih => exact insertDesc_pairwise ih

/-- Ranks of the finalized rows are consecutive from the start index
plus one. -/
theorem zipWith_finalize_rank (l : List (PreRow × Option PyFloat × PyFloat)) :
    ∀ s : Nat, (List.zipWith finalizeRow l (List.range' s l.length)).map StdRow.rank =
      List.range' (s + 1) l.length := by
  induction l with
  | nil => intro s; rfl
  | cons y ys ih =>
    intro s
    simp only [List.length_cons, List.range'_succ, List.zipWith_cons_cons, List.map_cons, ih (s + 1)]
    rfl

/-- Sort keys of the finalized rows are the keys of the inputs. -/
theorem zipWith_finalize_sizeSort (l : List (PreRow × Option PyFloat × PyFloat)) :
    ∀ s : Nat, (List.zipWith finalizeRow l (List.range' s l.length)).map StdRow.sizeSort =
      l.map (fun x => x.2.2) := by
  induction l with
  | nil => intro s; rfl
  | cons y ys ih =>
    intro s
    simp only [List.length_cons, List.range'_succ, List.zipWith_cons_cons, List.map_cons, ih (s + 1)]
    rfl

/-- Ranks, sortedness and filtered-rank monotonicity of a finalized
list, for any sorted input list. -/
theorem finalized_props (l : List (PreRow × Option PyFloat × PyFloat)) (t : Date) :
    (List.zipWith finalizeRow l (List.range l.length)).map StdRow.rank =
      List.range' 1 (List.zipWith finalizeRow l (List.range l.length)).length ∧
    (List.Pairwise (fun a b => PyFloat.keyGe a.2.2 b.2.2 = true) l →
      List.Pairwise (fun a b : PyFloat => PyFloat.keyGe a b = true)
        ((List.zipWith finalizeRow l (List.range l.length)).map StdRow.sizeSort)) ∧
    List.Pairwise (fun a b : Nat => a < b)
      ((filter_relevant t (List.zipWith finalizeRow l (List.range l.length))).map
        StdRow.rank) := by
  have hrk : (List.zipWith finalizeRow l (List.range l.length)).map StdRow.rank =
      List.range' 1 l.length := by
    rw [List.range_eq_range']
    exact zipWith_finalize_rank l 0
  refine ⟨?_, ?_, ?_⟩
  · rw [hrk]
    simp [List.length_zipWith, List.length_range']
  · intro hp
    rw [List.range_eq_range', zipWith_finalize_sizeSort]
    exact List.pairwise_map.mpr hp
  · have hsub : List.Sublist
        ((filter_relevant t (List.zipWith finalizeRow l (List.range l.length))).map
          StdRow.rank)
        ((List.zipWith finalizeRow l (List.range l.length)).map StdRow.rank) :=
      List.Sublist.map StdRow.rank (List.filter_sublist _)
    rw [hrk] at hsub
    exact (List.pairwise_lt_range' _ _).sublist hsub

/-- C3, amended.  Ranks are assigned inside `normalize_df`, after its
sort and before the relevance filter: the normalized list carries ranks
exactly 1..n in output order and is ordered by non-increasing sort key
under the descending key order `PyFloat.keyGe` (the key is the parsed
size, 0 for a missing one — all keys 0 when any size is missing — not
a weighted score); the final filtered output preserves
that order, so its rank values are strictly increasing but can skip
numbers (see the counterexample). -/
theorem C3_amended :
    ∀ (t : Date) (df : DF) (rows : List StdRow),
      normalize_df t df = .ok rows →
      rows.map StdRow.rank = List.range' 1 rows.length ∧
      List.Pairwise (fun a b : PyFloat => PyFloat.keyGe a b = true) (rows.map StdRow.sizeSort) ∧
      List.Pairwise (fun a b : Nat => a < b) ((filter_relevant t rows).map StdRow.rank) := by
  intro t df rows h
  unfold normalize_df at h
  obtain ⟨c1, h1, h⟩ := exceptBind_ok h
  obtain ⟨c2, h2, h⟩ := exceptBind_ok h
  obtain ⟨c3, h3, h⟩ := exceptBind_ok h
  obtain ⟨c4, h4, h⟩ := exceptBind_ok h
  obtain ⟨c5, h5, h⟩ := exceptBind_ok h
  obtain ⟨c6, h6, h⟩ := exceptBind_ok h
  obtain ⟨c7, h7, h⟩ := exceptBind_ok h
  obtain ⟨sizes, hsz, h⟩ := exceptBind_ok h
  have hpure : ∀ (z : List StdRow), (pure z : Except Unit (List StdRow)) = .ok z :=
    fun z => rfl
  rw [hpure] at h
  injection h with hrows
  subst hrows
  exact ⟨(finalized_props _ t).1, (finalized_props _ t).2.1 (sortDesc_pairwise _),
         (finalized_props _ t).2.2⟩

/-- The normalized rows of the C3 fixture table. -/
def normRowsC3 : List StdRow := ((normalize_df dateT0 dfC3).toOption).getD []

/-- C3, witness: the amended statement instantiated on the fixture
table (where the filtered ranks are the gapped but increasing [2]). -/
theorem C3_witness :
    normalize_df dateT0 dfC3 = .ok normRowsC3 ∧
    (normRowsC3.map StdRow.rank = List.range' 1 normRowsC3.length ∧
     List.Pairwise (fun a b : PyFloat => PyFloat.keyGe a b = true) (normRowsC3.map StdRow.sizeSort) ∧
     List.Pairwise (fun a b : Nat => a < b)
       ((filter_relevant dateT0 normRowsC3).map StdRow.rank)) :=
  ⟨by with_unfolding_all rfl,
   C3_amended dateT0 dfC3 normRowsC3 (by with_unfolding_all rfl)⟩

/-! ## C5: the size parser on digit-run inputs

A "numeral" below is a run of ASCII digit characters, optionally split
by one dot: exactly the strings the anchored size regexes capture and
`float` accepts.  The lemmas are stated for arbitrary such runs, so
they cover decimal sizes like "2.5 Cr" and zero-padded ones alike. -/

/-- Digit characters are produced correctly by `dch`. -/
theorem dch_isDigit {n : Nat} (h : n < 10) : (dch n).isDigit = true := by
  interval_cases n <;> decide

/-- A rendered digit differs from any non-digit character. -/
theorem dch_ne {n : Nat} (h : n < 10) {c : Char} (hc : c.isDigit = false) :
    dch n ≠ c := by
  intro he
  have hd := dch_isDigit h
  rw [he, hc] at hd
  exact absurd hd (by simp)

/-- Code bounds of a digit character. -/
theorem isDigit_toNat {c : Char} (h : c.isDigit = true) : 48 ≤ c.toNat ∧ c.toNat ≤ 57 := by
  simp only [Char.isDigit, Bool.and_eq_true, decide_eq_true_eq] at h
  exact ⟨h.1, h.2⟩

/-- Every digit character is a rendered digit. -/
theorem isDigit_dch {c : Char} (h : c.isDigit = true) : ∃ k, k < 10 ∧ c = dch k := by
  obtain ⟨h1, h2⟩ := isDigit_toNat h
  refine ⟨c.toNat - 48, by omega, ?_⟩
  unfold dch
  rw [show 48 + (c.toNat - 48) = c.toNat from by omega]
  exact (Char.ofNat_toNat c).symm

/-- A digit character differs from any non-digit character. -/
theorem digit_ne {c c2 : Char} (h : c.isDigit = true) (h2 : c2.isDigit = false) :
    c ≠ c2 := by
  rintro rfl
  rw [h] at h2
  cases h2

